import Mathlib

/-!
Shallow embedding of the ink! staking contract in `src/lib.rs`.

Accounts are modelled as `Nat`, balances (`Balance`, u128 in the source) as
`Nat` with explicit overflow checks at `2 ^ 128`, and block numbers
(`BlockNumber`) as `Nat`.  The host environment's fallible value transfer is
modelled by a boolean parameter per transfer attempt (`true` = the host
transfer succeeds); the transfers actually performed are recorded in the
operation's outcome.  A Rust `panic!` / failed `assert!` / `unwrap` on `None`
aborts the whole transaction, modelled by the `Outcome.panic` constructor;
returning `Err` from an ink! 3.x message does not revert state, so error
returns carry the mutated state.
-/

namespace StakingSpec

/-- `Balance` is `u128` in the source; additions overflow at `2 ^ 128`. -/
def BalanceLimit : Nat := 2 ^ 128

/-- `u128::checked_add`: `none` exactly when the sum does not fit in `u128`. -/
def checked_add (a b : Nat) : Option Nat :=
  if a + b < BalanceLimit then some (a + b) else none

/-- `checked_sub` on unsigned integers modelled as `Nat`. -/
def checked_sub (a b : Nat) : Option Nat :=
  if b ≤ a then some (a - b) else none

/-- `StakingPosition` from the source: a balance and the block of the last
settling action. -/
structure StakingPosition where
  stake_amount : Nat
  last_action_block : Nat
  deriving DecidableEq

/-- `ink_storage::Mapping<AccountId, StakingPosition>` as a total function to
`Option`. -/
abbrev Mapping : Type := Nat → Option StakingPosition

/-- `Mapping::insert`. -/
def Mapping.insert (m : Mapping) (k : Nat) (v : StakingPosition) : Mapping :=
  fun k2 => if k2 = k then some v else m k2

/-- The empty mapping (initial contract storage). -/
def Mapping.empty : Mapping := fun _ => none

/-- The contract storage struct `Staking`. -/
structure Staking where
  apy : Nat
  stake_positions : Mapping
  staked_addresses : List Nat

/-- The constructor `Staking::new`: empty mapping, empty address list. -/
def Staking.new (apy : Nat) : Staking :=
  ⟨apy, Mapping.empty, []⟩

/-- The error enum `StakingError`. -/
inductive StakingError where
  | UnstakeError (msg : String)
  | ClaimingRewardError (msg : String)
  | Other (msg : String)
  deriving DecidableEq

/-- `Result<(), StakingError>` as returned by the three messages. -/
inductive CallResult where
  | ok
  | err (e : StakingError)
  deriving DecidableEq

/-- The three contract events. -/
inductive Event where
  | Staked (user amount : Nat)
  | Unstaked (user amount : Nat)
  | Claimed (user amount : Nat)
  deriving DecidableEq

/-- Outcome of one message call: either the transaction panics (aborts, no
state survives), or it returns a `CallResult` together with the post-call
storage, the events emitted, and the host transfers performed (recipient,
amount), in order. -/
inductive Outcome where
  | panic (msg : String)
  | ret (state : Staking) (result : CallResult) (events : List Event)
      (transfers : List (Nat × Nat))

/-- Rust `Debug` formatting of a `StakingError`, as used by the
`format!` in `unstake`. -/
def debugFmt : StakingError → String
  | .UnstakeError m => "UnstakeError(\"" ++ m ++ "\")"
  | .ClaimingRewardError m => "ClaimingRewardError(\"" ++ m ++ "\")"
  | .Other m => "Other(\"" ++ m ++ "\")"

/-- `calculate_rewards` with the source's `checked_sub(..).unwrap()` kept as
an `Option` (`none` = the unwrap would panic). -/
def calculate_rewards_checked (current_block : Nat) (p : StakingPosition) : Option Nat :=
  if current_block ≤ p.last_action_block then some 0
  else checked_sub current_block p.last_action_block

/-- `Staking::calculate_rewards`: zero if the current block is not past the
last action block, otherwise the number of elapsed blocks.  (The guard makes
the checked subtraction infallible; see `claim3_accrual_formula`.) -/
def calculate_rewards (current_block : Nat) (p : StakingPosition) : Nat :=
  if current_block ≤ p.last_action_block then 0
  else current_block - p.last_action_block

/-- `Staking::rewards_for_user`. -/
def rewards_for_user (s : Staking) (user : Nat) (current_block : Nat) : Nat :=
  match s.stake_positions user with
  | some stake => calculate_rewards current_block stake
  | none => 0

/-- `Staking::get_account_stake`. -/
def get_account_stake (s : Staking) (account : Nat) : Nat :=
  match s.stake_positions account with
  | some position => position.stake_amount
  | none => 0

/-- `Staking::stake`.  `transferred_amount` is `self.env().transferred_value()`
and `current_block` is `self.env().block_number()`. -/
def stake (caller current_block transferred_amount : Nat) (s : Staking) : Outcome :=
  if transferred_amount > 0 then
    match s.stake_positions caller with
    | some staking_position =>
      match checked_add staking_position.stake_amount transferred_amount with
      | some new_balance =>
        let s1 : Staking :=
          { s with stake_positions :=
              (s.stake_positions.insert caller
                ⟨new_balance, staking_position.last_action_block⟩) }
        let s2 : Staking := { s1 with staked_addresses := s1.staked_addresses ++ [caller] }
        .ret s2 .ok [.Staked caller transferred_amount] []
      | none => .ret s (.err (.Other "Failed while adding balances")) [] []
    | none =>
      let s1 : Staking :=
        { s with stake_positions :=
            s.stake_positions.insert caller ⟨transferred_amount, current_block⟩ }
      let s2 : Staking := { s1 with staked_addresses := s1.staked_addresses ++ [caller] }
      .ret s2 .ok [.Staked caller transferred_amount] []
  else .panic "Must stake more than 0"

/-- `Staking::claim_reward`.  `transferOk` models whether the host transfer of
the reward would succeed. -/
def claim_reward (caller current_block : Nat) (transferOk : Bool) (s : Staking) : Outcome :=
  let reward := rewards_for_user s caller current_block
  match s.stake_positions caller with
  | some staking_position =>
    let s1 : Staking :=
      { s with stake_positions :=
          (s.stake_positions.insert caller
            ⟨staking_position.stake_amount, current_block⟩) }
    if reward > 0 then
      if transferOk then .ret s1 .ok [.Claimed caller reward] [(caller, reward)]
      else
        .ret s1 (.err (.ClaimingRewardError "failed to transfer claimed reward to user")) [] []
    else .ret s1 .ok [] []
  | none => .ret s (.err (.ClaimingRewardError "user doesnt seem to have a stake")) [] []

/-- `Iterator::position` of the first list element equal to `x`
(`.iter().position(|x| *x == caller)` in `unstake`). -/
def listPosition (x : Nat) : List Nat → Option Nat
  | [] => none
  | y :: ys => if y = x then some 0 else (listPosition x ys).map (· + 1)

/-- `Staking::unstake`.  `claimTransferOk` models the host transfer inside the
nested `claim_reward`, `unstakeTransferOk` the transfer of the unstaked
amount (whose failure panics in the source). -/
def unstake (caller current_block unstake_amount : Nat)
    (claimTransferOk unstakeTransferOk : Bool) (s : Staking) : Outcome :=
  if unstake_amount > 0 then
    match s.stake_positions caller with
    | some user_stake =>
      if unstake_amount > user_stake.stake_amount then
        .ret s (.err (.UnstakeError "unstake amount cannot be greater than staked amount")) [] []
      else
        match checked_sub user_stake.stake_amount unstake_amount with
        | some rest_stake =>
          let afterClaim : Outcome :=
            if rest_stake = 0 then
              match listPosition caller s.staked_addresses with
              | some idx =>
                let s1 : Staking :=
                  { s with staked_addresses := s.staked_addresses.eraseIdx idx }
                match claim_reward caller current_block claimTransferOk s1 with
                | .panic m => .panic m
                | .ret s2 (.err e) evs trs =>
                  .ret s2
                    (.err (.Other
                      ("Failed to claim all the rewards after unstaking: " ++ debugFmt e)))
                    evs trs
                | .ret s2 .ok evs trs => .ret s2 .ok evs trs
              | none => .panic "called unwrap on a None value"
            else .ret s .ok [] []
          match afterClaim with
          | .panic m => .panic m
          | .ret sc (.err e) evs trs => .ret sc (.err e) evs trs
          | .ret sc .ok evs trs =>
            if unstakeTransferOk then
              let s3 : Staking :=
                { sc with stake_positions :=
                    sc.stake_positions.insert caller ⟨rest_stake, current_block⟩ }
              .ret s3 .ok (evs ++ [.Unstaked caller unstake_amount])
                (trs ++ [(caller, unstake_amount)])
            else .panic "failed to transfer unstaked amount"
        | none => .ret s (.err (.Other "Overflow error while substractiong stakes")) [] []
    | none => .ret s (.err (.UnstakeError "can only unstake if user has already staked")) [] []
  else .panic "Must unstake more than 0"

/-- Projection: the returned `Result` of an outcome (`none` = panicked). -/
def Outcome.resultOf : Outcome → Option CallResult
  | .panic _ => none
  | .ret _ r _ _ => some r

/-- Projection: the post-call storage (`none` = panicked). -/
def Outcome.stateOf : Outcome → Option Staking
  | .panic _ => none
  | .ret s _ _ _ => some s

/-- Projection: the emitted events (`none` = panicked). -/
def Outcome.eventsOf : Outcome → Option (List Event)
  | .panic _ => none
  | .ret _ _ evs _ => some evs

/-- Projection: the performed host transfers (`none` = panicked). -/
def Outcome.transfersOf : Outcome → Option (List (Nat × Nat))
  | .panic _ => none
  | .ret _ _ _ trs => some trs

/-- Projection: did the call panic (abort the transaction)? -/
def Outcome.isPanic : Outcome → Bool
  | .panic _ => true
  | .ret _ _ _ _ => false

/-- Projection: the caller-visible stake of `id` after the call. -/
def Outcome.stakeAfter (o : Outcome) (id : Nat) : Option Nat :=
  o.stateOf.map (fun s => get_account_stake s id)

/-- Projection: the stored position of `id` after the call. -/
def Outcome.posAfter (o : Outcome) (id : Nat) : Option (Option StakingPosition) :=
  o.stateOf.map (fun s => s.stake_positions id)

/-- Projection: the active-address list after the call. -/
def Outcome.activeAfter (o : Outcome) : Option (List Nat) :=
  o.stateOf.map Staking.staked_addresses

/-- One host-level call to the contract, with its per-call environment. -/
inductive Op where
  | stakeOp (caller block amount : Nat)
  | unstakeOp (caller block amount : Nat) (claimOk transferOk : Bool)
  | claimOp (caller block : Nat) (transferOk : Bool)

/-- Run one call against a storage state. -/
def applyOp (s : Staking) : Op → Outcome
  | .stakeOp c b a => stake c b a s
  | .unstakeOp c b a cOk tOk => unstake c b a cOk tOk s
  | .claimOp c b tOk => claim_reward c b tOk s

/-- The storage after one call: a panic aborts the transaction, leaving the
storage unchanged; an error return keeps the mutated storage (ink! 3.x does
not revert on `Err`). -/
def stepOp (s : Staking) (op : Op) : Staking :=
  match applyOp s op with
  | .panic _ => s
  | .ret s2 _ _ _ => s2

/-- Does every host transfer involved in this call succeed? -/
def Op.transfersOk : Op → Bool
  | .stakeOp _ _ _ => true
  | .unstakeOp _ _ _ cOk tOk => cOk && tOk
  | .claimOp _ _ tOk => tOk

/-- States reachable from a freshly constructed contract by any sequence of
`stake` / `unstake` / `claim_reward` calls. -/
inductive Reachable : Staking → Prop where
  | init (apy : Nat) : Reachable (Staking.new apy)
  | step {s : Staking} (op : Op) : Reachable s → Reachable (stepOp s op)

/-- States reachable by calls in which every host transfer succeeds. -/
inductive ReachableOk : Staking → Prop where
  | init (apy : Nat) : ReachableOk (Staking.new apy)
  | step {s : Staking} (op : Op) : ReachableOk s → op.transfersOk = true →
      ReachableOk (stepOp s op)

/-- The active-set soundness invariant: every identity holding a position with
positive stake occurs in `staked_addresses`. -/
def ActiveInv (s : Staking) : Prop :=
  ∀ id sp, s.stake_positions id = some sp → 0 < sp.stake_amount →
    id ∈ s.staked_addresses

/-- Concrete scenario: one participant (account 1) stakes 10 at block 0. -/
def sOne : Staking := stepOp (Staking.new 1000) (.stakeOp 1 0 10)

/-- Concrete scenario: account 1 stakes 5 twice at block 0 (duplicate entry). -/
def sDup : Staking := stepOp (stepOp (Staking.new 1000) (.stakeOp 1 0 5)) (.stakeOp 1 0 5)

/-- Concrete scenario: after `sOne`, account 1 fully unstakes at block 0;
its position stays stored with zero stake. -/
def sZero : Staking := stepOp sOne (.unstakeOp 1 0 10 true true)

/-- Concrete scenario: after `sOne`, account 1 attempts a full unstake at
block 5 but the reward transfer inside the nested claim fails; the error
return keeps the mutated storage. -/
def sOrphan : Staking := stepOp sOne (.unstakeOp 1 5 10 false true)

/-- A demonstration state used by witnesses: account 1 holds 10 staked since
block 2 and is listed once. -/
def demoState : Staking := ⟨1000, Mapping.empty.insert 1 ⟨10, 2⟩, [1]⟩

/-- `demoState` after account 1 fully unstakes at block 7 (all transfers
succeed). -/
def sAfterFull : Staking := stepOp demoState (.unstakeOp 1 7 10 true true)

theorem Mapping.insert_self (m : Mapping) (k : Nat) (v : StakingPosition) :
    m.insert k v k = some v := by
  simp [Mapping.insert]

theorem Mapping.insert_ne (m : Mapping) (k : Nat) (v : StakingPosition) (k2 : Nat)
    (h : k2 ≠ k) : m.insert k v k2 = m k2 := by
  simp [Mapping.insert, h]

theorem listPosition_of_mem {x : Nat} :
    ∀ {l : List Nat}, x ∈ l → ∃ i, listPosition x l = some i := by
  intro l
  induction l with
  | nil => intro h; cases h
  | cons y ys ih =>
    intro h
    by_cases hyx : y = x
    · exact ⟨0, by simp [listPosition, hyx]⟩
    · have hxs : x ∈ ys := by
        rcases List.mem_cons.mp h with h1 | h1
        · exact absurd h1.symm hyx
        · exact h1
      rcases ih hxs with ⟨i, hi⟩
      exact ⟨i + 1, by simp [listPosition, hyx, hi]⟩

theorem eraseIdx_of_listPosition {x : Nat} :
    ∀ {l : List Nat} {i : Nat}, listPosition x l = some i → l.eraseIdx i = l.erase x := by
  intro l
  induction l with
  | nil => intro i h; simp [listPosition] at h
  | cons y ys ih =>
    intro i h
    by_cases hyx : y = x
    · simp [listPosition, hyx] at h
      subst h
      simp [List.eraseIdx, List.erase_cons, hyx]
    · simp [listPosition, hyx] at h
      rcases h with ⟨j, hj, hji⟩
      subst hji
      simp [List.eraseIdx, List.erase_cons, hyx, ih hj]

theorem claim_reward_of_none (s : Staking) (caller t : Nat) (tOk : Bool)
    (hp : s.stake_positions caller = none) :
    claim_reward caller t tOk s =
      .ret s (.err (.ClaimingRewardError "user doesnt seem to have a stake")) [] [] := by
  simp [claim_reward, rewards_for_user, hp]

theorem claim_reward_of_some (s : Staking) (caller t : Nat) (tOk : Bool)
    (sp : StakingPosition) (hp : s.stake_positions caller = some sp) :
    claim_reward caller t tOk s =
      if 0 < calculate_rewards t sp then
        if tOk then
          Outcome.ret ⟨s.apy, s.stake_positions.insert caller ⟨sp.stake_amount, t⟩,
              s.staked_addresses⟩ .ok
            [.Claimed caller (calculate_rewards t sp)]
            [(caller, calculate_rewards t sp)]
        else
          Outcome.ret ⟨s.apy, s.stake_positions.insert caller ⟨sp.stake_amount, t⟩,
              s.staked_addresses⟩
            (.err (.ClaimingRewardError "failed to transfer claimed reward to user")) [] []
      else
        Outcome.ret ⟨s.apy, s.stake_positions.insert caller ⟨sp.stake_amount, t⟩,
            s.staked_addresses⟩ .ok [] [] := by
  simp only [claim_reward, rewards_for_user, hp, gt_iff_lt]

theorem stake_of_some (s : Staking) (caller t a : Nat) (sp : StakingPosition)
    (hp : s.stake_positions caller = some sp) (ha : 0 < a)
    (hov : sp.stake_amount + a < BalanceLimit) :
    stake caller t a s =
      .ret ⟨s.apy, s.stake_positions.insert caller ⟨sp.stake_amount + a, sp.last_action_block⟩,
          s.staked_addresses ++ [caller]⟩ .ok [.Staked caller a] [] := by
  simp only [stake, hp, checked_add, if_pos hov, gt_iff_lt, if_pos ha]

theorem stake_of_some_overflow (s : Staking) (caller t a : Nat) (sp : StakingPosition)
    (hp : s.stake_positions caller = some sp) (ha : 0 < a)
    (hov : ¬ sp.stake_amount + a < BalanceLimit) :
    stake caller t a s = .ret s (.err (.Other "Failed while adding balances")) [] [] := by
  simp only [stake, hp, checked_add, if_neg hov, gt_iff_lt, if_pos ha]

theorem stake_of_none (s : Staking) (caller t a : Nat)
    (hp : s.stake_positions caller = none) (ha : 0 < a) :
    stake caller t a s =
      .ret ⟨s.apy, s.stake_positions.insert caller ⟨a, t⟩, s.staked_addresses ++ [caller]⟩
        .ok [.Staked caller a] [] := by
  simp only [stake, hp, gt_iff_lt, if_pos ha]

theorem unstake_of_none (s : Staking) (caller t a : Nat) (cOk tOk : Bool)
    (hp : s.stake_positions caller = none) (ha : 0 < a) :
    unstake caller t a cOk tOk s =
      .ret s (.err (.UnstakeError "can only unstake if user has already staked")) [] [] := by
  simp only [unstake, hp, gt_iff_lt, if_pos ha]

theorem unstake_of_too_much (s : Staking) (caller t a : Nat) (cOk tOk : Bool)
    (sp : StakingPosition) (hp : s.stake_positions caller = some sp)
    (ha : 0 < a) (hgt : sp.stake_amount < a) :
    unstake caller t a cOk tOk s =
      .ret s (.err (.UnstakeError "unstake amount cannot be greater than staked amount")) [] [] := by
  simp only [unstake, hp, gt_iff_lt, if_pos ha, if_pos hgt]

theorem unstake_some_rest (s : Staking) (caller t a : Nat) (cOk : Bool)
    (sp : StakingPosition) (hp : s.stake_positions caller = some sp)
    (ha : 0 < a) (hlt : a < sp.stake_amount) :
    unstake caller t a cOk true s =
      .ret ⟨s.apy, s.stake_positions.insert caller ⟨sp.stake_amount - a, t⟩,
          s.staked_addresses⟩ .ok [.Unstaked caller a] [(caller, a)] := by
  have hle : a ≤ sp.stake_amount := Nat.le_of_lt hlt
  have hrest : ¬ sp.stake_amount - a = 0 := by omega
  simp [unstake, hp, ha, Nat.not_lt.mpr hle, checked_sub, hle, hrest]

theorem unstake_full_ok (s : Staking) (caller t : Nat) (cOk : Bool)
    (sp : StakingPosition) (hp : s.stake_positions caller = some sp)
    (hpos : 0 < sp.stake_amount) (hmem : caller ∈ s.staked_addresses)
    (hc : 0 < calculate_rewards t sp → cOk = true) :
    unstake caller t sp.stake_amount cOk true s =
      .ret ⟨s.apy,
          (s.stake_positions.insert caller ⟨sp.stake_amount, t⟩).insert caller ⟨0, t⟩,
          s.staked_addresses.erase caller⟩ .ok
        ((if 0 < calculate_rewards t sp then [.Claimed caller (calculate_rewards t sp)]
          else []) ++ [.Unstaked caller sp.stake_amount])
        ((if 0 < calculate_rewards t sp then [(caller, calculate_rewards t sp)]
          else []) ++ [(caller, sp.stake_amount)]) := by
  rcases listPosition_of_mem hmem with ⟨i, hi⟩
  have herase := eraseIdx_of_listPosition hi
  have hs1 : ({ s with staked_addresses := s.staked_addresses.erase caller } :
      Staking).stake_positions caller = some sp := hp
  by_cases hr : 0 < calculate_rewards t sp
  · have hcOk := hc hr
    subst hcOk
    have hclaim := claim_reward_of_some
      { s with staked_addresses := s.staked_addresses.erase caller } caller t true sp hs1
    rw [if_pos hr, if_pos rfl] at hclaim
    simp [unstake, hp, hpos, checked_sub, Nat.sub_self, hi, herase, hclaim, hr]
  · have hclaim := claim_reward_of_some
      { s with staked_addresses := s.staked_addresses.erase caller } caller t cOk sp hs1
    rw [if_neg hr] at hclaim
    simp [unstake, hp, hpos, checked_sub, Nat.sub_self, hi, herase, hclaim, hr]

theorem unstake_full_claimfail (s : Staking) (caller t : Nat) (tOk : Bool)
    (sp : StakingPosition) (hp : s.stake_positions caller = some sp)
    (hpos : 0 < sp.stake_amount) (hmem : caller ∈ s.staked_addresses)
    (hr : 0 < calculate_rewards t sp) :
    unstake caller t sp.stake_amount false tOk s =
      .ret ⟨s.apy, s.stake_positions.insert caller ⟨sp.stake_amount, t⟩,
          s.staked_addresses.erase caller⟩
        (.err (.Other ("Failed to claim all the rewards after unstaking: " ++
          debugFmt (.ClaimingRewardError "failed to transfer claimed reward to user"))))
        [] [] := by
  rcases listPosition_of_mem hmem with ⟨i, hi⟩
  have herase := eraseIdx_of_listPosition hi
  have hs1 : ({ s with staked_addresses := s.staked_addresses.erase caller } :
      Staking).stake_positions caller = some sp := hp
  have hclaim := claim_reward_of_some
    { s with staked_addresses := s.staked_addresses.erase caller } caller t false sp hs1
  rw [if_pos hr, if_neg Bool.false_ne_true] at hclaim
  simp [unstake, hp, hpos, checked_sub, Nat.sub_self, hi, herase, hclaim, hr]

theorem stake_preserves_inv (s : Staking) (caller t a : Nat) (h : ActiveInv s) :
    ActiveInv (stepOp s (.stakeOp caller t a)) := by
  by_cases ha : 0 < a
  · cases hp : s.stake_positions caller with
    | none =>
      rw [show stepOp s (.stakeOp caller t a) =
          ⟨s.apy, s.stake_positions.insert caller ⟨a, t⟩, s.staked_addresses ++ [caller]⟩ from
        by simp [stepOp, applyOp, stake_of_none s caller t a hp ha]]
      intro id sp2 hid hpos2
      dsimp only at hid ⊢
      by_cases hic : id = caller
      · subst hic; exact List.mem_append_right _ (List.mem_singleton.mpr rfl)
      · rw [Mapping.insert_ne _ _ _ _ hic] at hid
        exact List.mem_append_left _ (h id sp2 hid hpos2)
    | some sp =>
      by_cases hov : sp.stake_amount + a < BalanceLimit
      · rw [show stepOp s (.stakeOp caller t a) =
            ⟨s.apy, s.stake_positions.insert caller ⟨sp.stake_amount + a, sp.last_action_block⟩,
              s.staked_addresses ++ [caller]⟩ from
          by simp [stepOp, applyOp, stake_of_some s caller t a sp hp ha hov]]
        intro id sp2 hid hpos2
        dsimp only at hid ⊢
        by_cases hic : id = caller
        · subst hic; exact List.mem_append_right _ (List.mem_singleton.mpr rfl)
        · rw [Mapping.insert_ne _ _ _ _ hic] at hid
          exact List.mem_append_left _ (h id sp2 hid hpos2)
      · rw [show stepOp s (.stakeOp caller t a) = s from
          by simp [stepOp, applyOp, stake_of_some_overflow s caller t a sp hp ha hov]]
        exact h
  · rw [show stepOp s (.stakeOp caller t a) = s from
      by simp [stepOp, applyOp, stake, ha]]
    exact h

theorem claim_preserves_inv (s : Staking) (caller t : Nat) (tOk : Bool) (h : ActiveInv s) :
    ActiveInv (stepOp s (.claimOp caller t tOk)) := by
  cases hp : s.stake_positions caller with
  | none =>
    rw [show stepOp s (.claimOp caller t tOk) = s from
      by simp [stepOp, applyOp, claim_reward_of_none s caller t tOk hp]]
    exact h
  | some sp =>
    have hstep : stepOp s (.claimOp caller t tOk) =
        ⟨s.apy, s.stake_positions.insert caller ⟨sp.stake_amount, t⟩, s.staked_addresses⟩ := by
      have hclaim := claim_reward_of_some s caller t tOk sp hp
      by_cases hr : 0 < calculate_rewards t sp
      · rw [if_pos hr] at hclaim
        cases tOk with
        | true => rw [if_pos rfl] at hclaim; simp [stepOp, applyOp, hclaim]
        | false => rw [if_neg Bool.false_ne_true] at hclaim; simp [stepOp, applyOp, hclaim]
      · rw [if_neg hr] at hclaim
        simp [stepOp, applyOp, hclaim]
    rw [hstep]
    intro id sp2 hid hpos2
    dsimp only at hid ⊢
    by_cases hic : id = caller
    · rw [hic] at hid ⊢
      rw [Mapping.insert_self] at hid
      cases hid
      exact h caller sp hp hpos2
    · rw [Mapping.insert_ne _ _ _ _ hic] at hid
      exact h id sp2 hid hpos2

theorem unstake_preserves_inv (s : Staking) (caller t a : Nat) (h : ActiveInv s) :
    ActiveInv (stepOp s (.unstakeOp caller t a true true)) := by
  by_cases ha : 0 < a
  · cases hp : s.stake_positions caller with
    | none =>
      rw [show stepOp s (.unstakeOp caller t a true true) = s from
        by simp [stepOp, applyOp, unstake_of_none s caller t a true true hp ha]]
      exact h
    | some sp =>
      rcases Nat.lt_trichotomy a sp.stake_amount with hlt | heq | hgt
      · rw [show stepOp s (.unstakeOp caller t a true true) =
            ⟨s.apy, s.stake_positions.insert caller ⟨sp.stake_amount - a, t⟩,
              s.staked_addresses⟩ from
          by simp [stepOp, applyOp, unstake_some_rest s caller t a true sp hp ha hlt]]
        intro id sp2 hid hpos2
        dsimp only at hid ⊢
        by_cases hic : id = caller
        · rw [hic] at hid ⊢
          rw [Mapping.insert_self] at hid
          cases hid
          exact h caller sp hp (by omega)
        · rw [Mapping.insert_ne _ _ _ _ hic] at hid
          exact h id sp2 hid hpos2
      · have hpos : 0 < sp.stake_amount := heq ▸ ha
        have hmem : caller ∈ s.staked_addresses := h caller sp hp hpos
        rw [show stepOp s (.unstakeOp caller t a true true) =
            ⟨s.apy, (s.stake_positions.insert caller ⟨sp.stake_amount, t⟩).insert caller ⟨0, t⟩,
              s.staked_addresses.erase caller⟩ from
          by rw [heq]; simp [stepOp, applyOp,
            unstake_full_ok s caller t true sp hp hpos hmem (fun _ => rfl)]]
        intro id sp2 hid hpos2
        dsimp only at hid ⊢
        by_cases hic : id = caller
        · rw [hic] at hid
          rw [Mapping.insert_self] at hid
          cases hid
          simp at hpos2
        · rw [Mapping.insert_ne _ _ _ _ hic, Mapping.insert_ne _ _ _ _ hic] at hid
          exact (List.mem_erase_of_ne hic).mpr (h id sp2 hid hpos2)
      · rw [show stepOp s (.unstakeOp caller t a true true) = s from
          by simp [stepOp, applyOp, unstake_of_too_much s caller t a true true sp hp ha hgt]]
        exact h
  · rw [show stepOp s (.unstakeOp caller t a true true) = s from
      by simp [stepOp, applyOp, unstake, ha]]
    exact h

theorem reachableOk_activeInv {s : Staking} (h : ReachableOk s) : ActiveInv s := by
  induction h with
  | init apy =>
    intro id sp hid hpos
    cases hid
  | step op hre hok ih =>
    cases op with
    | stakeOp c b a => exact stake_preserves_inv _ c b a ih
    | unstakeOp c b a cOk tOk =>
      simp only [Op.transfersOk, Bool.and_eq_true] at hok
      rcases hok with ⟨hc, ht⟩
      subst hc; subst ht
      exact unstake_preserves_inv _ c b a ih
    | claimOp c b tOk => exact claim_preserves_inv _ c b tOk ih

theorem unstake_no_panic_of_inv (s : Staking) (h : ActiveInv s) (caller t a : Nat)
    (ha : 0 < a) : (unstake caller t a true true s).isPanic = false := by
  cases hp : s.stake_positions caller with
  | none => rw [unstake_of_none s caller t a true true hp ha]; rfl
  | some sp =>
    rcases Nat.lt_trichotomy a sp.stake_amount with hlt | heq | hgt
    · rw [unstake_some_rest s caller t a true sp hp ha hlt]; rfl
    · subst heq
      have hmem : caller ∈ s.staked_addresses := h caller sp hp ha
      rw [unstake_full_ok s caller t true sp hp ha hmem (fun _ => rfl)]; rfl
    · rw [unstake_of_too_much s caller t a true true sp hp ha hgt]; rfl

/-- Claim C3: the accrual formula.  For every position and current block,
`calculate_rewards` is `0` when `current_block ≤ last_action_block` and exactly
`current_block - last_action_block` otherwise; the checked subtraction behind
the source's `unwrap` always succeeds (no panic); and the result is
independent of the position's `stake_amount` and of the configured rate
(the storage field `apy` is not an argument of the computation at all, as the
last conjunct records for `rewards_for_user`). -/
theorem claim3_accrual_formula (t : Nat) (p : StakingPosition) :
    calculate_rewards_checked t p = some (calculate_rewards t p) ∧
    (t ≤ p.last_action_block → calculate_rewards t p = 0) ∧
    (p.last_action_block < t → calculate_rewards t p = t - p.last_action_block) ∧
    (∀ a2, calculate_rewards t ⟨a2, p.last_action_block⟩ = calculate_rewards t p) ∧
    (∀ apy1 apy2 ps sa u,
      rewards_for_user ⟨apy1, ps, sa⟩ u t = rewards_for_user ⟨apy2, ps, sa⟩ u t) := by
  refine ⟨?_, ?_, ?_, ?_, ?_⟩
  · by_cases hle : t ≤ p.last_action_block
    · simp [calculate_rewards_checked, calculate_rewards, hle]
    · simp [calculate_rewards_checked, calculate_rewards, checked_sub, hle,
        Nat.le_of_lt (Nat.lt_of_not_le hle)]
  · intro hle
    simp [calculate_rewards, hle]
  · intro hlt
    simp [calculate_rewards, Nat.not_le.mpr hlt]
  · intro a2
    rfl
  · intro apy1 apy2 ps sa u
    rfl

/-- Witness for C3 at concrete inputs: five blocks elapsed pay five units,
a non-elapsed clock pays zero, and the result ignores the stake. -/
theorem claim3_accrual_formula_witness :
    calculate_rewards_checked 7 ⟨3, 2⟩ = some (calculate_rewards 7 ⟨3, 2⟩) ∧
    calculate_rewards 7 ⟨3, 2⟩ = 7 - 2 ∧
    calculate_rewards 2 ⟨3, 7⟩ = 0 ∧
    calculate_rewards 7 ⟨1000000, 2⟩ = calculate_rewards 7 ⟨3, 2⟩ :=
  ⟨(claim3_accrual_formula 7 ⟨3, 2⟩).1,
   (claim3_accrual_formula 7 ⟨3, 2⟩).2.2.1 (by decide),
   (claim3_accrual_formula 2 ⟨3, 7⟩).2.1 (by decide),
   (claim3_accrual_formula 7 ⟨3, 2⟩).2.2.2.1 1000000⟩

/-- Claim C6: claim semantics.  For every identity with an existing position,
`claim_reward` keeps `stake_amount` unchanged and sets the settlement block to
the current block in every branch (reward zero, transfer success, transfer
failure), leaves other positions and the active list untouched, transfers the
reward and emits `Claimed` exactly when the reward is positive and the
transfer succeeds, and returns a `ClaimingRewardError` on transfer failure. -/
theorem claim6_claim_semantics (s : Staking) (caller t : Nat) (tOk : Bool)
    (sp : StakingPosition) (hp : s.stake_positions caller = some sp) :
    (claim_reward caller t tOk s).posAfter caller = some (some ⟨sp.stake_amount, t⟩) ∧
    (∀ id, id ≠ caller →
      (claim_reward caller t tOk s).posAfter id = some (s.stake_positions id)) ∧
    (claim_reward caller t tOk s).activeAfter = some s.staked_addresses ∧
    (0 < rewards_for_user s caller t → tOk = true →
      (claim_reward caller t tOk s).resultOf = some .ok ∧
      (claim_reward caller t tOk s).eventsOf =
        some [.Claimed caller (rewards_for_user s caller t)] ∧
      (claim_reward caller t tOk s).transfersOf =
        some [(caller, rewards_for_user s caller t)]) ∧
    (0 < rewards_for_user s caller t → tOk = false →
      (claim_reward caller t tOk s).resultOf =
        some (.err (.ClaimingRewardError "failed to transfer claimed reward to user")) ∧
      (claim_reward caller t tOk s).eventsOf = some [] ∧
      (claim_reward caller t tOk s).transfersOf = some []) ∧
    (rewards_for_user s caller t = 0 →
      (claim_reward caller t tOk s).resultOf = some .ok ∧
      (claim_reward caller t tOk s).eventsOf = some [] ∧
      (claim_reward caller t tOk s).transfersOf = some []) := by
  have hre : rewards_for_user s caller t = calculate_rewards t sp := by
    simp [rewards_for_user, hp]
  have hclaim := claim_reward_of_some s caller t tOk sp hp
  rw [hre]
  by_cases hr : 0 < calculate_rewards t sp
  · rw [if_pos hr] at hclaim
    cases tOk with
    | true =>
      rw [if_pos rfl] at hclaim
      rw [hclaim]
      refine ⟨?_, fun id hic => ?_, ?_, fun _ _ => ⟨rfl, rfl, rfl⟩,
        fun _ hfalse => absurd hfalse (by decide), fun h0 => absurd h0 (by omega)⟩
      · simp [Outcome.posAfter, Outcome.stateOf, Mapping.insert_self]
      · simp [Outcome.posAfter, Outcome.stateOf, Mapping.insert, hic]
      · simp [Outcome.activeAfter, Outcome.stateOf]
    | false =>
      rw [if_neg Bool.false_ne_true] at hclaim
      rw [hclaim]
      refine ⟨?_, fun id hic => ?_, ?_, fun _ hfalse => absurd hfalse (by decide),
        fun _ _ => ⟨rfl, rfl, rfl⟩, fun h0 => absurd h0 (by omega)⟩
      · simp [Outcome.posAfter, Outcome.stateOf, Mapping.insert_self]
      · simp [Outcome.posAfter, Outcome.stateOf, Mapping.insert, hic]
      · simp [Outcome.activeAfter, Outcome.stateOf]
  · rw [if_neg hr] at hclaim
    rw [hclaim]
    refine ⟨?_, fun id hic => ?_, ?_, fun hpos _ => absurd hpos hr,
      fun hpos _ => absurd hpos hr, fun _ => ⟨rfl, rfl, rfl⟩⟩
    · simp [Outcome.posAfter, Outcome.stateOf, Mapping.insert_self]
    · simp [Outcome.posAfter, Outcome.stateOf, Mapping.insert, hic]
    · simp [Outcome.activeAfter, Outcome.stateOf]

/-- Witness for C6: on `demoState` at block 7, account 1 claims 5, keeps its
stake of 10, and has its settlement block advanced to 7. -/
theorem claim6_claim_semantics_witness :
    (claim_reward 1 7 true demoState).posAfter 1 = some (some ⟨10, 7⟩) ∧
    (claim_reward 1 7 true demoState).resultOf = some .ok ∧
    (claim_reward 1 7 true demoState).eventsOf = some [.Claimed 1 (rewards_for_user demoState 1 7)] ∧
    (claim_reward 1 7 true demoState).transfersOf = some [(1, rewards_for_user demoState 1 7)] := by
  have h := claim6_claim_semantics demoState 1 7 true ⟨10, 2⟩ rfl
  have hpos : 0 < rewards_for_user demoState 1 7 := by decide
  exact ⟨h.1, (h.2.2.2.1 hpos rfl).1, (h.2.2.2.1 hpos rfl).2.1, (h.2.2.2.1 hpos rfl).2.2⟩

/-- Claim C7: deposit arithmetic and settlement-time frame.  For every valid
deposit (positive amount, no overflow of the checked addition), `stake`
succeeds, the caller's stake grows by exactly the transferred amount, an
existing position keeps its old `last_action_block`, and a fresh position is
created with the current block as its settlement time. -/
theorem claim7_deposit_arithmetic (s : Staking) (caller t a : Nat)
    (ha : 0 < a) (hov : get_account_stake s caller + a < BalanceLimit) :
    (stake caller t a s).resultOf = some .ok ∧
    (stake caller t a s).stakeAfter caller = some (get_account_stake s caller + a) ∧
    (∀ sp, s.stake_positions caller = some sp →
      (stake caller t a s).posAfter caller =
        some (some ⟨sp.stake_amount + a, sp.last_action_block⟩)) ∧
    (s.stake_positions caller = none →
      (stake caller t a s).posAfter caller = some (some ⟨a, t⟩)) := by
  cases hp : s.stake_positions caller with
  | none =>
    rw [stake_of_none s caller t a hp ha]
    have hget : get_account_stake s caller = 0 := by simp [get_account_stake, hp]
    refine ⟨rfl, ?_, ?_, ?_⟩
    · simp [Outcome.stakeAfter, Outcome.stateOf, get_account_stake, Mapping.insert_self, hp]
    · intro sp hsp
      exact Option.noConfusion hsp
    · intro _
      simp [Outcome.posAfter, Outcome.stateOf, Mapping.insert_self]
  | some sp =>
    have hget : get_account_stake s caller = sp.stake_amount := by
      simp [get_account_stake, hp]
    rw [hget] at hov
    rw [stake_of_some s caller t a sp hp ha hov]
    refine ⟨rfl, ?_, ?_, ?_⟩
    · simp [Outcome.stakeAfter, Outcome.stateOf, get_account_stake, Mapping.insert_self, hp]
    · intro sp2 hsp2
      cases hsp2
      simp [Outcome.posAfter, Outcome.stateOf, Mapping.insert_self]
    · intro hnone
      exact Option.noConfusion hnone

/-- Witness for C7: a first deposit of 7 at block 3 creates position `(7, 3)`;
a top-up of 7 on `demoState` yields stake 17 while the settlement block stays
at 2. -/
theorem claim7_deposit_arithmetic_witness :
    (stake 1 3 7 (Staking.new 1000)).resultOf = some .ok ∧
    (stake 1 3 7 (Staking.new 1000)).posAfter 1 = some (some ⟨7, 3⟩) ∧
    (stake 1 9 7 demoState).stakeAfter 1 = some (get_account_stake demoState 1 + 7) ∧
    (stake 1 9 7 demoState).posAfter 1 = some (some ⟨10 + 7, 2⟩) := by
  have h1 := claim7_deposit_arithmetic (Staking.new 1000) 1 3 7 (by decide) (by decide)
  have h2 := claim7_deposit_arithmetic demoState 1 9 7 (by decide) (by decide)
  exact ⟨h1.1, h1.2.2.2 rfl, h2.2.1, h2.2.2.1 ⟨10, 2⟩ rfl⟩

/-- Claim C8 counterexample: the claim demands, for every identity, that
`unstake` with `amount > stake_of(id)` yield the specific message
"unstake amount cannot be greater than staked amount"; but for an identity
with no position at all (`stake_of = 0 < amount`) the code returns the other
message, "can only unstake if user has already staked". -/
theorem claim8_error_taxonomy_cex :
    0 < 1 ∧ get_account_stake (Staking.new 1000) 7 < 1 ∧
    (unstake 7 5 1 true true (Staking.new 1000)).resultOf =
      some (.err (.UnstakeError "can only unstake if user has already staked")) ∧
    (unstake 7 5 1 true true (Staking.new 1000)).resultOf ≠
      some (.err (.UnstakeError "unstake amount cannot be greater than staked amount")) := by
  refine ⟨by decide, by decide, by decide, by decide⟩

/-- Claim C8 as amended: for every identity *with an existing position*,
`unstake` with `amount > stake_amount` returns
`UnstakeError("unstake amount cannot be greater than staked amount")`, and
`unstake` by an identity with no position returns
`UnstakeError("can only unstake if user has already staked")`; in both cases
the returned state is the input state, so the Ledger Store (positions and
active set) is unchanged. -/
theorem claim8_error_taxonomy_amended (s : Staking) (caller t a : Nat) (cOk tOk : Bool)
    (ha : 0 < a) :
    (∀ sp, s.stake_positions caller = some sp → sp.stake_amount < a →
      unstake caller t a cOk tOk s =
        .ret s (.err (.UnstakeError "unstake amount cannot be greater than staked amount"))
          [] []) ∧
    (s.stake_positions caller = none →
      unstake caller t a cOk tOk s =
        .ret s (.err (.UnstakeError "can only unstake if user has already staked")) [] []) :=
  ⟨fun sp hp hgt => unstake_of_too_much s caller t a cOk tOk sp hp ha hgt,
   fun hp => unstake_of_none s caller t a cOk tOk hp ha⟩

/-- Witness for the amended C8 on `demoState`: over-unstaking by the staker
and unstaking by a stranger both fail with the respective messages, leaving
the state untouched. -/
theorem claim8_error_taxonomy_amended_witness :
    unstake 1 7 11 true true demoState =
      .ret demoState
        (.err (.UnstakeError "unstake amount cannot be greater than staked amount")) [] [] ∧
    unstake 2 7 1 true true demoState =
      .ret demoState (.err (.UnstakeError "can only unstake if user has already staked")) [] [] :=
  ⟨(claim8_error_taxonomy_amended demoState 1 7 11 true true (by decide)).1 ⟨10, 2⟩ rfl
      (by decide),
   (claim8_error_taxonomy_amended demoState 2 7 1 true true (by decide)).2 rfl⟩

/-- Claim C1 (evaluation of the code at the failing input): `stake` pushes the
caller onto `staked_addresses` unconditionally, so two deposits by account 1
produce a reachable state whose position is `(10, 0)` with the account listed
twice — the companion set holds a duplicate entry, contradicting the
at-most-once invariant. -/
theorem claim1_duplicate_active_entries :
    Reachable sDup ∧
    sDup.stake_positions 1 = some ⟨10, 0⟩ ∧
    List.count 1 sDup.staked_addresses = 2 := by
  refine ⟨?_, by decide, by decide⟩
  exact Reachable.step _ (Reachable.step _ (Reachable.init 1000))

/-- Claim C2 (evaluation of the code at the failing input): after a full
unstake the position remains stored with `stake_amount = 0`, and a later
`claim_reward` on that logically absent position returns `Ok`, transfers a
positive reward and emits `Claimed` — instead of the `ClaimingRewardError`
with no payout that the claim requires. -/
theorem claim2_zero_stake_claim_pays :
    Reachable sZero ∧
    get_account_stake sZero 1 = 0 ∧
    (claim_reward 1 5 true sZero).resultOf = some .ok ∧
    (claim_reward 1 5 true sZero).transfersOf = some [(1, 5)] ∧
    (claim_reward 1 5 true sZero).eventsOf = some [.Claimed 1 5] := by
  refine ⟨?_, by decide, by decide, by decide, by decide⟩
  exact Reachable.step _ (Reachable.step _ (Reachable.init 1000))

/-- Claim C5 (evaluation of the code at the failing input): when the nested
claim fails during a full unstake, `unstake` returns the recoverable
`Other` error, yet the caller has already been removed from
`staked_addresses` — a Ledger Store change that is not the noted
settlement-time exception. -/
theorem claim5_error_mutates_active_set :
    Reachable sOne ∧
    sOne.staked_addresses = [1] ∧
    (unstake 1 5 10 false true sOne).resultOf =
      some (.err (.Other ("Failed to claim all the rewards after unstaking: " ++
        debugFmt (.ClaimingRewardError "failed to transfer claimed reward to user")))) ∧
    (unstake 1 5 10 false true sOne).activeAfter = some [] := by
  refine ⟨?_, by decide, by decide, by decide⟩
  exact Reachable.step _ (Reachable.init 1000)

/-- Claim C4 counterexample: in the reachable state `sDup` (account 1 staked
twice, so it is listed twice), a successful full unstake removes only one
occurrence: the call returns `Ok` but account 1 is still in the active set. -/
theorem claim4_full_unstake_cex :
    Reachable sDup ∧
    get_account_stake sDup 1 = 10 ∧
    (unstake 1 0 10 true true sDup).resultOf = some .ok ∧
    (unstake 1 0 10 true true sDup).activeAfter = some [1] := by
  refine ⟨?_, by decide, by decide, by decide⟩
  exact Reachable.step _ (Reachable.step _ (Reachable.init 1000))

/-- Claim C4 as amended: a successful full unstake removes one occurrence of
the caller from the active set (hence removes the caller entirely whenever it
occurred exactly once, as the intended invariant guarantees), leaves the
caller's stake at 0, settles the outstanding reward via the nested claim
within the same call (the `Claimed` event and reward transfer precede the
`Unstaked` event and stake refund), and a failure of the nested claim is
surfaced as an `Other` error rather than silent success. -/
theorem claim4_full_unstake_amended (s : Staking) (caller t : Nat) (cOk : Bool)
    (sp : StakingPosition) (hp : s.stake_positions caller = some sp)
    (hpos : 0 < sp.stake_amount) (hmem : caller ∈ s.staked_addresses) :
    ((0 < calculate_rewards t sp → cOk = true) →
      (unstake caller t sp.stake_amount cOk true s).resultOf = some .ok ∧
      (unstake caller t sp.stake_amount cOk true s).stakeAfter caller = some 0 ∧
      (unstake caller t sp.stake_amount cOk true s).activeAfter =
        some (s.staked_addresses.erase caller) ∧
      List.count caller (s.staked_addresses.erase caller) =
        List.count caller s.staked_addresses - 1 ∧
      (List.count caller s.staked_addresses = 1 →
        caller ∉ s.staked_addresses.erase caller) ∧
      (unstake caller t sp.stake_amount cOk true s).eventsOf =
        some ((if 0 < calculate_rewards t sp
          then [Event.Claimed caller (calculate_rewards t sp)] else []) ++
          [Event.Unstaked caller sp.stake_amount]) ∧
      (unstake caller t sp.stake_amount cOk true s).transfersOf =
        some ((if 0 < calculate_rewards t sp
          then [(caller, calculate_rewards t sp)] else []) ++
          [(caller, sp.stake_amount)])) ∧
    (0 < calculate_rewards t sp → cOk = false →
      (unstake caller t sp.stake_amount cOk true s).resultOf =
        some (.err (.Other ("Failed to claim all the rewards after unstaking: " ++
          debugFmt (.ClaimingRewardError "failed to transfer claimed reward to user"))))) := by
  constructor
  · intro hc
    rw [unstake_full_ok s caller t cOk sp hp hpos hmem hc]
    refine ⟨rfl, ?_, rfl, ?_, ?_, rfl, rfl⟩
    · simp [Outcome.stakeAfter, Outcome.stateOf, get_account_stake, Mapping.insert_self]
    · exact List.count_erase_self caller s.staked_addresses
    · intro h1 hmem2
      have hcount := List.count_erase_self caller s.staked_addresses
      rw [h1] at hcount
      have hpos2 := List.count_pos_iff.mpr hmem2
      omega
  · intro hr hcf
    subst hcf
    rw [unstake_full_claimfail s caller t true sp hp hpos hmem hr]
    rfl

/-- Witness for the amended C4 on `demoState` at block 7: the full unstake
succeeds, pays the reward of 5 and then the stake of 10, empties the active
set and zeroes the stake. -/
theorem claim4_full_unstake_amended_witness :
    (unstake 1 7 10 true true demoState).resultOf = some .ok ∧
    (unstake 1 7 10 true true demoState).stakeAfter 1 = some 0 ∧
    (unstake 1 7 10 true true demoState).activeAfter = some [] ∧
    (unstake 1 7 10 true true demoState).eventsOf =
      some [Event.Claimed 1 5, Event.Unstaked 1 10] ∧
    (unstake 1 7 10 true true demoState).transfersOf = some [(1, 5), (1, 10)] := by
  have h := (claim4_full_unstake_amended demoState 1 7 true ⟨10, 2⟩ rfl (by decide)
    (by decide)).1 (fun _ => rfl)
  exact ⟨h.1, h.2.1, by decide, by decide, by decide⟩

/-- Claim C9: after a full unstake the participant's position remains stored
as `(0, t)` where `t` is the unstake block; a subsequent deposit takes the
existing-position path, so the new position is `(a, t)` — the old settlement
block is preserved, not reset to the deposit block — and therefore at the
deposit block `t2 > t` the reward already equals `t2 - t`, accruing over the
whole interval during which the stake was zero. -/
theorem claim9_zero_stake_accrual (s : Staking) (caller t t2 a : Nat) (cOk : Bool)
    (sp : StakingPosition) (hp : s.stake_positions caller = some sp)
    (hpos : 0 < sp.stake_amount) (hmem : caller ∈ s.staked_addresses)
    (hc : 0 < calculate_rewards t sp → cOk = true)
    (ha : 0 < a) (hov : a < BalanceLimit) (ht2 : t < t2) :
    (unstake caller t sp.stake_amount cOk true s).posAfter caller = some (some ⟨0, t⟩) ∧
    ∀ s1, (unstake caller t sp.stake_amount cOk true s).stateOf = some s1 →
      (stake caller t2 a s1).posAfter caller = some (some ⟨a, t⟩) ∧
      ∀ s2, (stake caller t2 a s1).stateOf = some s2 →
        rewards_for_user s2 caller t2 = t2 - t ∧ 0 < rewards_for_user s2 caller t2 := by
  rw [unstake_full_ok s caller t cOk sp hp hpos hmem hc]
  constructor
  · simp [Outcome.posAfter, Outcome.stateOf, Mapping.insert_self]
  · intro s1 hs1
    simp only [Outcome.stateOf, Option.some.injEq] at hs1
    subst hs1
    have hp1 : (((s.stake_positions.insert caller ⟨sp.stake_amount, t⟩).insert caller
        ⟨0, t⟩) : Mapping) caller = some ⟨0, t⟩ := Mapping.insert_self _ _ _
    have hov1 : (0 : Nat) + a < BalanceLimit := by omega
    rw [stake_of_some _ caller t2 a ⟨0, t⟩ hp1 ha hov1]
    constructor
    · simp [Outcome.posAfter, Outcome.stateOf, Mapping.insert_self]
    · intro s2 hs2
      simp only [Outcome.stateOf, Option.some.injEq] at hs2
      subst hs2
      have : rewards_for_user
          ⟨s.apy, (((s.stake_positions.insert caller ⟨sp.stake_amount, t⟩).insert caller
            ⟨0, t⟩).insert caller ⟨0 + a, t⟩),
            s.staked_addresses.erase caller ++ [caller]⟩ caller t2 = t2 - t := by
        simp [rewards_for_user, Mapping.insert_self, calculate_rewards, Nat.not_le.mpr ht2]
      constructor
      · exact this
      · rw [this]; omega

/-- Witness for C9: on `demoState`, fully unstake at block 7, then deposit 4
at block 9; the position is `(4, 7)` and the reward at block 9 is already 2
although the stake was zero from block 7 to block 9. -/
theorem claim9_zero_stake_accrual_witness :
    (unstake 1 7 10 true true demoState).posAfter 1 = some (some ⟨0, 7⟩) ∧
    (stake 1 9 4 sAfterFull).posAfter 1 = some (some ⟨4, 7⟩) ∧
    rewards_for_user (stepOp sAfterFull (.stakeOp 1 9 4)) 1 9 = 9 - 7 ∧
    0 < rewards_for_user (stepOp sAfterFull (.stakeOp 1 9 4)) 1 9 := by
  have h := claim9_zero_stake_accrual demoState 1 7 9 4 true ⟨10, 2⟩ rfl (by decide)
    (by decide) (fun _ => rfl) (by decide) (by decide) (by decide)
  have h2 := h.2 sAfterFull rfl
  have h3 := h2.2 (stepOp sAfterFull (.stakeOp 1 9 4)) rfl
  exact ⟨h.1, h2.1, h3.1, h3.2⟩

/-- Claim C10 counterexample: the state `sOrphan` is reachable (stake 10, then
a full unstake whose reward transfer fails, so the error return keeps the
already-emptied active set), its position for account 1 has positive stake
while the active list is empty, and a subsequent full unstake hits the
`unwrap` on the failed linear search and panics. -/
theorem claim10_unwrap_panics_cex :
    Reachable sOrphan ∧
    sOrphan.stake_positions 1 = some ⟨10, 5⟩ ∧
    sOrphan.staked_addresses = [] ∧
    (unstake 1 6 10 true true sOrphan).isPanic = true := by
  refine ⟨?_, by decide, by decide, by decide⟩
  exact Reachable.step _ (Reachable.step _ (Reachable.init 1000))

/-- Claim C10 as amended: in every state reachable by calls in which all host
transfers succeed, any identity whose position has positive stake occurs in
`staked_addresses`, and consequently `unstake` (with succeeding transfers and
a positive amount) never panics — in particular the full-unstake linear
search always finds the caller, so the `unwrap` and the index removal are
safe. -/
theorem claim10_active_soundness_amended (s : Staking) (h : ReachableOk s) :
    (∀ id sp, s.stake_positions id = some sp → 0 < sp.stake_amount →
      id ∈ s.staked_addresses) ∧
    (∀ caller t a, 0 < a → (unstake caller t a true true s).isPanic = false) :=
  ⟨reachableOk_activeInv h,
   fun caller t a ha => unstake_no_panic_of_inv s (reachableOk_activeInv h) caller t a ha⟩

/-- Witness for the amended C10 on the reachable state `sOne`: the staker is
listed, and a full unstake attempt by a stranger does not panic. -/
theorem claim10_active_soundness_amended_witness :
    (1 ∈ sOne.staked_addresses) ∧
    (unstake 2 3 1 true true sOne).isPanic = false := by
  have h := claim10_active_soundness_amended sOne
    (ReachableOk.step (Op.stakeOp 1 0 10) (ReachableOk.init 1000) rfl)
  exact ⟨h.1 1 ⟨10, 0⟩ (by decide) (by decide), h.2 2 3 1 (by decide)⟩

end StakingSpec
